import Mathlib

/-!
Verification development for the charcoal stacked-branch merge orchestrator
(`gt stack merge`) and the freeze-branch action.

The merge command itself has no implementation in this repository; only its
two design documents exist.  All merge-orchestration definitions below are
therefore modelled from the specification (the design documents and the
derived system spec), as noted on each definition.  The freeze-branch
definitions are translated from apps/cli/src/actions/freeze_branch.ts.
-/

namespace Charcoal

/-- GitHub merge-state values, from the spec section Mergeable State Check:
CLEAN, BLOCKED, BEHIND, DIRTY, UNKNOWN, UNSTABLE. -/
inductive MergeStateStatus
  | CLEAN
  | BLOCKED
  | BEHIND
  | DIRTY
  | UNKNOWN
  | UNSTABLE
  deriving DecidableEq, Repr

/-- Pull-request lifecycle state, used by the already-merged edge case
(detected via the state field, not mergeStateStatus). -/
inductive PrState
  | OPEN
  | MERGED
  | CLOSED
  deriving DecidableEq, Repr

/-- Check-run progress counts, used only for progress display per the spec. -/
structure CheckSummary where
  completed : Nat
  total : Nat
  deriving DecidableEq, Repr

/-- Modelled from the spec: PullRequestStatus snapshot (data model section).
Fields number, baseRefName, mergeStateStatus, checkSummary are listed there;
the state field is the one the already-merged edge case reads; the
hasFailingChecks flag is the platform-reported fact behind the spec wording
"BLOCKED with failing required checks" (it is distinct from checkSummary,
which the spec reserves for progress display). -/
structure PullRequestStatus where
  number : Nat
  baseRefName : String
  state : PrState
  mergeStateStatus : MergeStateStatus
  hasFailingChecks : Bool
  checkSummary : CheckSummary
  deriving DecidableEq, Repr

/-- From the isMergeable snippet in the design document:
a PR is mergeable exactly when mergeStateStatus is CLEAN. -/
def isMergeable (pr : PullRequestStatus) : Bool :=
  pr.mergeStateStatus = MergeStateStatus.CLEAN

/-- Modelled from the spec: BranchNode, one stack member
(name, parentName, prNumber, frozen). -/
structure BranchNode where
  name : String
  parentName : Option String
  prNumber : Option Nat
  frozen : Bool
  deriving DecidableEq, Repr

/-- Errors of the Stack Resolver contract (spec 4.1). -/
inductive ResolveError
  | OnTrunk
  | DetachedHead
  | BrokenParentChain
  | UntilNotInStack
  deriving DecidableEq, Repr

/-- Modelled from the spec: the Stack Resolver walk. Follows parent links
from a branch back to trunk, producing the chain in trunk-adjacent-first
order (the walk is reversed per spec 4.1; building by appending yields the
reversed order directly).  Fuel bounds the walk so that a cyclic or broken
parent graph yields none rather than divergence. -/
def walkToTrunk (parentOf : String → Option String) (trunk : String) :
    Nat → String → Option (List String)
  | 0, _ => none
  | fuel + 1, b =>
    if b = trunk then some []
    else
      match parentOf b with
      | none => none
      | some p => (walkToTrunk parentOf trunk fuel p).map (fun l => l ++ [b])

/-- Modelled from the spec: truncation of the walk at the until branch,
inclusive (spec 4.1 "Truncates the list at untilBranchName inclusive"). -/
def takeUntilIncl (u : String) : List String → List String
  | [] => []
  | b :: rest => if b = u then [b] else b :: takeUntilIncl u rest

/-- Modelled from the spec: Stack Resolver contract
resolve(currentBranch, untilBranchName) -> TargetList | Error (spec 4.1).
Fails with DetachedHead when there is no tracked current branch, OnTrunk when
the current branch is trunk, UntilNotInStack when the until name never
appears in the walk; otherwise returns the trunk-first target list truncated
at the until branch inclusive. -/
def resolve (parentOf : String → Option String) (trunk : String) (fuel : Nat)
    (currentBranch : Option String) (untilBranch : Option String) :
    Except ResolveError (List String) :=
  match currentBranch with
  | none => .error .DetachedHead
  | some cb =>
    if cb = trunk then .error .OnTrunk
    else
      match walkToTrunk parentOf trunk fuel cb with
      | none => .error .BrokenParentChain
      | some chain =>
        match untilBranch with
        | none => .ok chain
        | some u =>
          if u ∈ chain then .ok (takeUntilIncl u chain)
          else .error .UntilNotInStack

/-- Parent map of the concrete four-branch stack main ← A ← B ← C. -/
def demoParent : String → Option String :=
  fun b =>
    if b = "A" then some "main"
    else if b = "B" then some "A"
    else if b = "C" then some "B"
    else none

/-- One-tick result of the WAITING state (spec 4.3). -/
inductive WaitStepResult
  | toMerging
  | checkFailedTimeout
  | checkFailedChecks
  | stay
  deriving DecidableEq, Repr

/-- Modelled from the spec: one poll tick of the WAITING state (spec 4.3).
Transition to MERGING the instant mergeStateStatus is CLEAN; otherwise, if
elapsed wall-clock time since entering WAITING has reached timeoutPerPr,
transition to CHECK_FAILED with reason Timeout; otherwise a definite failure
state (DIRTY, or BLOCKED with failing required checks) gives CHECK_FAILED
with reason ChecksFailed; any other status keeps waiting. -/
def waitStep (pr : PullRequestStatus) (elapsed timeoutSecs : Nat) : WaitStepResult :=
  if pr.mergeStateStatus = MergeStateStatus.CLEAN then .toMerging
  else if timeoutSecs ≤ elapsed then .checkFailedTimeout
  else if pr.mergeStateStatus = MergeStateStatus.DIRTY ∨
      (pr.mergeStateStatus = MergeStateStatus.BLOCKED ∧ pr.hasFailingChecks) then
    .checkFailedChecks
  else .stay

/-- Modelled from the spec: the WAITING polling loop from tick k onward.
Polls arrive every pollInterval seconds starting at entry (tick k occurs at
elapsed time k * pollInterval); the loop leaves WAITING at the first
decisive tick.  Fuel bounds the number of ticks examined. -/
def waitFrom (poll : Nat → PullRequestStatus) (timeoutSecs pollInterval : Nat) :
    Nat → Nat → Option (WaitStepResult × Nat)
  | 0, _ => none
  | fuel + 1, k =>
    match waitStep (poll k) (k * pollInterval) timeoutSecs with
    | .stay => waitFrom poll timeoutSecs pollInterval fuel (k + 1)
    | r => some (r, k * pollInterval)

/-- Modelled from the spec: a full WAITING run from entry.  Because the
timeout fires once k * pollInterval reaches timeoutSecs, at most
timeoutSecs / pollInterval + 1 ticks are ever examined, which is the fuel. -/
def waitRun (poll : Nat → PullRequestStatus) (timeoutSecs pollInterval : Nat) :
    Option (WaitStepResult × Nat) :=
  waitFrom poll timeoutSecs pollInterval (timeoutSecs / pollInterval + 1) 0

/-- A polled status that is neither CLEAN nor a definite failure state:
the WAITING state keeps polling on it. -/
def nondecisive (pr : PullRequestStatus) : Prop :=
  pr.mergeStateStatus ≠ MergeStateStatus.CLEAN ∧
  pr.mergeStateStatus ≠ MergeStateStatus.DIRTY ∧
  ¬(pr.mergeStateStatus = MergeStateStatus.BLOCKED ∧ pr.hasFailingChecks)

instance (pr : PullRequestStatus) : Decidable (nondecisive pr) := by
  unfold nondecisive
  infer_instance

/-- A platform whose polls always report DIRTY (merge conflicts). -/
def constDirtyPoll : Nat → PullRequestStatus :=
  fun _ =>
    { number := 101
      baseRefName := "main"
      state := PrState.OPEN
      mergeStateStatus := MergeStateStatus.DIRTY
      hasFailingChecks := false
      checkSummary := { completed := 0, total := 5 } }

/-- Every status this platform ever reports is distinct from CLEAN,
checked over the first n polls. -/
def neverCleanUpTo (poll : Nat → PullRequestStatus) (n : Nat) : Bool :=
  (List.range n).all fun k =>
    (poll k).mergeStateStatus ≠ MergeStateStatus.CLEAN

/-- A platform whose polls always report UNKNOWN (status being computed). -/
def constUnknownPoll : Nat → PullRequestStatus :=
  fun _ =>
    { number := 101
      baseRefName := "main"
      state := PrState.OPEN
      mergeStateStatus := MergeStateStatus.UNKNOWN
      hasFailingChecks := false
      checkSummary := { completed := 0, total := 5 } }

/-- Per-branch result of the WAITING phase, abstracting the polling loop
above for use by the orchestrator layer. -/
inductive WaitOutcome
  | ready
  | failedTimeout
  | failedChecks
  deriving DecidableEq, Repr

/-- The decision provider answer for the Retry/Abort recovery policy
(spec 4.5); a non-interactive provider always answers abort. -/
inductive Decision
  | retry
  | abort
  deriving DecidableEq, Repr

/-- Modelled from the spec: the behavior the review platform exhibits for
each branch during one run — the status snapshot read at WAITING entry, how
the WAITING poll loop for the branch ends, and whether the merge call
succeeds (false models a merge rejected by branch protection). -/
structure PlatformBehavior where
  entryStatus : String → PullRequestStatus
  waitFor : String → WaitOutcome
  mergeSucceeds : String → Bool

/-- Observable operations of a run, recorded in order.  poll and mergeCall
name the branch they act on; syncCall and submitCall are the external sync
and submit commands; validateStep marks Precondition Validation running. -/
inductive Effect
  | validateStep
  | poll (branch : String)
  | mergeCall (branch : String)
  | syncCall
  | submitCall
  deriving DecidableEq, Repr

/-- True exactly on mergeCall effects. -/
def isMergeEffect : Effect → Bool
  | .mergeCall _ => true
  | _ => false

/-- True exactly on submitCall effects. -/
def isSubmitEffect : Effect → Bool
  | .submitCall => true
  | _ => false

/-- The branch an effect acts on directly, when it names one. -/
def branchOfEffect : Effect → Option String
  | .poll b => some b
  | .mergeCall b => some b
  | _ => none

/-- Modelled from the spec: per-branch result emitted by the loop
(MergeOutcome in the data model). -/
inductive MergeOutcome
  | Merged (branch : String)
  | SkippedAlreadyMerged (branch : String)
  | StoppedAtFrozen (branch : String)
  | Aborted (branch : String)
  deriving DecidableEq, Repr

/-- Result of running the per-PR state machine for one branch: its outcome,
the effects performed, whether the whole run must stop (abort), and the
exit code contribution. -/
structure BranchStep where
  outcome : MergeOutcome
  effects : List Effect
  stop : Bool
  code : Nat
  deriving DecidableEq, Repr

/-- Modelled from the spec: the per-PR merge state machine (spec 4.3) at
orchestrator granularity.  At WAITING entry, a pull request the platform
already reports merged or closed (via its state field) skips straight to
DONE with outcome SkippedAlreadyMerged, with no merge call, while the
propagation step (sync and submit) still runs.  Otherwise the WAITING loop
runs; on ready the merge is called, success giving Merged followed by
propagation, rejection giving MERGE_BLOCKED; check failure or timeout gives
CHECK_FAILED.  CHECK_FAILED and MERGE_BLOCKED are resolved by the recovery
decision: retry re-enters the current state (bounded here by fuel), abort
ends the run with outcome Aborted and a nonzero code.  One attempt is the
attemptBranch function: inl is a completed step (skip or merge), inr is a
failure that needs the recovery decision (CHECK_FAILED or MERGE_BLOCKED),
carrying the effects performed so far; processBranch closes the retry loop
over attempts, bounded by fuel. -/
def attemptBranch (pb : PlatformBehavior) (t : BranchNode) :
    BranchStep ⊕ List Effect :=
  let st := pb.entryStatus t.name
  if st.state = PrState.MERGED ∨ st.state = PrState.CLOSED then
    .inl ⟨.SkippedAlreadyMerged t.name, [.syncCall, .submitCall], false, 0⟩
  else
    match pb.waitFor t.name with
    | .ready =>
      if pb.mergeSucceeds t.name then
        .inl ⟨.Merged t.name,
          [.poll t.name, .mergeCall t.name, .syncCall, .submitCall], false, 0⟩
      else .inr [.poll t.name, .mergeCall t.name]
    | _ => .inr [.poll t.name]

def processBranch (pb : PlatformBehavior) (dec : Decision) :
    Nat → BranchNode → BranchStep
  | 0, t =>
    match attemptBranch pb t with
    | .inl s => s
    | .inr es => ⟨.Aborted t.name, es, true, 1⟩
  | fuel + 1, t =>
    match attemptBranch pb t with
    | .inl s => s
    | .inr es =>
      match dec with
      | .abort => ⟨.Aborted t.name, es, true, 1⟩
      | .retry =>
        let s := processBranch pb dec fuel t
        ⟨s.outcome, es ++ s.effects, s.stop, s.code⟩

/-- Outcomes, effects and exit code of the merge loop proper. -/
structure LoopResult where
  outcomes : List MergeOutcome
  effects : List Effect
  exitCode : Nat
  deriving DecidableEq, Repr

/-- Modelled from the spec: the Orchestrator merge loop — drives the per-PR
state machine sequentially over the target list; an abort stops the run
immediately, leaving later targets untouched. -/
def runLoop (pb : PlatformBehavior) (dec : Decision) (fuel : Nat) :
    List BranchNode → LoopResult
  | [] => ⟨[], [], 0⟩
  | t :: rest =>
    let s := processBranch pb dec fuel t
    if s.stop then ⟨[s.outcome], s.effects, s.code⟩
    else
      let r := runLoop pb dec fuel rest
      ⟨s.outcome :: r.outcomes, s.effects ++ r.effects, r.exitCode⟩

/-- Precondition Validator errors (spec 4.2 / error taxonomy). -/
inductive PreError
  | DirtyWorkingTree
  | MissingPullRequest (branch : String)
  deriving DecidableEq, Repr

/-- Modelled from the spec: the full local environment a run reads —
branch graph, current branch, working-tree cleanliness, pull-request
numbers, frozen flags, and the platform behavior. -/
structure Env where
  parentOf : String → Option String
  trunk : String
  currentBranch : Option String
  dirtyWorkingTree : Bool
  prNumberOf : String → Option Nat
  isFrozen : String → Bool
  platform : PlatformBehavior

/-- Reads one BranchNode fresh from the environment. -/
def mkNode (env : Env) (name : String) : BranchNode :=
  ⟨name, env.parentOf name, env.prNumberOf name, env.isFrozen name⟩

/-- First branch in the list lacking an associated pull request, if any. -/
def firstMissingPr (ts : List BranchNode) : Option String :=
  (ts.find? fun t => t.prNumber.isNone).map (fun t => t.name)

/-- Modelled from the spec: the initial sync drops branches the platform
already reports merged or closed from the target list (spec 4.2 step 4). -/
def dropMergedClosed (pb : PlatformBehavior) (ts : List BranchNode) :
    List BranchNode :=
  ts.filter fun t => (pb.entryStatus t.name).state = PrState.OPEN

/-- Modelled from the spec: frozen-branch truncation (spec 4.2 step 5) —
cut the target list just before the first frozen branch and remember that
branch name for the final status message. -/
def truncateAtFrozen : List BranchNode → List BranchNode × Option String
  | [] => ([], none)
  | t :: rest =>
    if t.frozen then ([], some t.name)
    else
      let (l, f) := truncateAtFrozen rest
      (t :: l, f)

/-- Modelled from the spec: Precondition Validation (spec 4.2), run once
before the loop, short-circuiting on the first failure: dirty working tree,
then missing pull request, are checked before the initial sync runs, so a
precondition failure happens before any mutation; then the sync drops
already-merged branches and the frozen re-scan truncates the list. -/
def validatePre (env : Env) (ts : List BranchNode) :
    Except PreError (List BranchNode × Option String) :=
  if env.dirtyWorkingTree then .error .DirtyWorkingTree
  else
    match firstMissingPr ts with
    | some b => .error (.MissingPullRequest b)
    | none => .ok (truncateAtFrozen (dropMergedClosed env.platform ts))

/-- Any error that makes a run exit before the merge loop. -/
inductive RunError
  | resolution (e : ResolveError)
  | precondition (e : PreError)
  deriving DecidableEq, Repr

/-- One line of the dry-run report. -/
structure DryRunEntry where
  prNumber : Option Nat
  branchName : String
  baseBranchName : String
  note : String
  deriving DecidableEq, Repr

/-- Modelled from the spec: the Dry-Run Reporter (spec 4.6) — one entry per
target in merge order, the first with an empty note, every later one
annotated "(after sync/submit)". -/
def dryRunReport (trunk : String) : List BranchNode → List DryRunEntry
  | [] => []
  | t :: rest =>
    ⟨t.prNumber, t.name, trunk, ""⟩ ::
      rest.map fun s => ⟨s.prNumber, s.name, trunk, "(after sync/submit)"⟩

/-- Everything a run returns: the ordered outcome list, the effect trace,
the exit code, the error that stopped it early (if any), and the dry-run
report (nonempty only in dry-run mode). -/
structure RunResult where
  outcomes : List MergeOutcome
  effects : List Effect
  exitCode : Nat
  runError : Option RunError
  report : List DryRunEntry
  deriving DecidableEq, Repr

/-- Modelled from the spec: validation plus the merge loop over a resolved
target list.  A precondition failure exits nonzero with no mutation; a clean
run over a frozen-truncated list ends with outcome StoppedAtFrozen and exit
code 0. -/
def runFromTargets (env : Env) (dec : Decision) (rfuel : Nat)
    (ts : List BranchNode) : RunResult :=
  match validatePre env ts with
  | .error e => ⟨[], [Effect.validateStep], 1, some (.precondition e), []⟩
  | .ok (effective, frozenOpt) =>
    let r := runLoop env.platform dec rfuel effective
    let finalOutcomes :=
      if r.exitCode = 0 then
        r.outcomes ++
          (match frozenOpt with
            | some f => [MergeOutcome.StoppedAtFrozen f]
            | none => [])
      else r.outcomes
    ⟨finalOutcomes, Effect.validateStep :: Effect.syncCall :: r.effects,
      r.exitCode, none, []⟩

/-- Modelled from the spec: MergeSessionConfig (data model) restricted to
the fields this layer reads, plus the recovery decision the provider
returns and the retry bound. -/
structure MergeSessionConfig where
  dryRun : Bool
  untilBranchName : Option String
  recovery : Decision
  retryFuel : Nat

/-- Modelled from the spec: the Orchestrator (spec component 6) — resolve
targets once; in dry-run mode short-circuit to the reporter with no
validation and no effects; otherwise validate once and drive the loop. -/
def orchestrate (cfg : MergeSessionConfig) (env : Env) (fuel : Nat) : RunResult :=
  match resolve env.parentOf env.trunk fuel env.currentBranch cfg.untilBranchName with
  | .error e => ⟨[], [], 1, some (.resolution e), []⟩
  | .ok names =>
    let targets := names.map (mkNode env)
    if cfg.dryRun then ⟨[], [], 0, none, dryRunReport env.trunk targets⟩
    else runFromTargets env cfg.recovery cfg.retryFuel targets

/-- The lasting external mutation of an effect: a merge call marks the
branch's pull request merged on the platform; polls, syncs and submits
change nothing the next run reads differently on an all-merged stack. -/
def applyEffect (env : Env) : Effect → Env
  | .mergeCall b =>
    { env with
      platform :=
        { env.platform with
          entryStatus := fun x =>
            if x = b then
              { env.platform.entryStatus x with state := PrState.MERGED }
            else env.platform.entryStatus x } }
  | _ => env

/-- Folds the lasting mutations of a whole effect trace over the
environment. -/
def applyEffects (env : Env) (es : List Effect) : Env :=
  es.foldl applyEffect env

/-- The effect trace of a branch that merges cleanly: poll, merge call,
then propagation (sync and submit), for each branch in order. -/
def cleanEffects : List BranchNode → List Effect
  | [] => []
  | t :: rest =>
    .poll t.name :: .mergeCall t.name :: .syncCall :: .submitCall ::
      cleanEffects rest

/-- Witness for C8: a concrete already-merged pull request. -/
def mergedEntryPlatform : PlatformBehavior where
  entryStatus := fun _ =>
    { number := 101
      baseRefName := "main"
      state := PrState.MERGED
      mergeStateStatus := MergeStateStatus.UNKNOWN
      hasFailingChecks := false
      checkSummary := { completed := 5, total := 5 } }
  waitFor := fun _ => WaitOutcome.ready
  mergeSucceeds := fun _ => true

/-- Concrete branch node used by several witnesses. -/
def nodeA : BranchNode := ⟨"feature-a", some "main", some 101, false⟩

/-- Status snapshot of an open pull request whose merge state is CLEAN. -/
def openCleanStatus (n : Nat) : PullRequestStatus :=
  ⟨n, "main", PrState.OPEN, MergeStateStatus.CLEAN, false, ⟨5, 5⟩⟩

/-- Platform on which every branch is open, immediately mergeable, and
every merge call succeeds. -/
def allCleanPlatform : PlatformBehavior where
  entryStatus := fun _ => openCleanStatus 101
  waitFor := fun _ => WaitOutcome.ready
  mergeSucceeds := fun _ => true

/-- Concrete environment for the frozen-truncation witness: stack
main ← A ← B ← C with B frozen, clean platform. -/
def envFrozenB : Env where
  parentOf := demoParent
  trunk := "main"
  currentBranch := some "C"
  dirtyWorkingTree := false
  prNumberOf := fun b =>
    if b = "A" then some 101
    else if b = "B" then some 102
    else if b = "C" then some 103
    else none
  isFrozen := fun b => b = "B"
  platform := allCleanPlatform

/-- Concrete stack nodes used by the loop-level witnesses. -/
def nA : BranchNode := ⟨"A", some "main", some 101, false⟩

def nB : BranchNode := ⟨"B", some "A", some 102, true⟩

def nC : BranchNode := ⟨"C", some "B", some 103, false⟩

/-- Platform for the abort witness: a is open and clean, b never becomes
mergeable (its wait times out), c is open. -/
def abortPlatform : PlatformBehavior where
  entryStatus := fun _ => openCleanStatus 101
  waitFor := fun x =>
    if x = "A" then WaitOutcome.ready else WaitOutcome.failedTimeout
  mergeSucceeds := fun _ => true

/-- Concrete environment for the abort witness. -/
def envAbortB : Env where
  parentOf := demoParent
  trunk := "main"
  currentBranch := some "C"
  dirtyWorkingTree := false
  prNumberOf := fun b =>
    if b = "A" then some 101
    else if b = "B" then some 102
    else if b = "C" then some 103
    else none
  isFrozen := fun _ => false
  platform := abortPlatform

/-- Unfrozen variant of the B node for the abort witness. -/
def nB' : BranchNode := ⟨"B", some "A", some 102, false⟩

/-- Dry-run session configuration for the witness. -/
def cfgDry : MergeSessionConfig := ⟨true, none, Decision.abort, 0⟩

/-- The witness environment for C7: identical stack but a dirty working
tree, the first precondition checked. -/
def envDirty : Env :=
  { envFrozenB with dirtyWorkingTree := true }

/-- Non-interactive session configuration used by several witnesses. -/
def cfgRun : MergeSessionConfig := ⟨false, none, Decision.abort, 0⟩

/-- Platform on which every pull request is already merged. -/
def allMergedPlatform : PlatformBehavior where
  entryStatus := fun _ =>
    ⟨101, "main", PrState.MERGED, MergeStateStatus.UNKNOWN, false, ⟨5, 5⟩⟩
  waitFor := fun _ => WaitOutcome.ready
  mergeSucceeds := fun _ => true

/-- Environment where the whole stack is already merged. -/
def envAllMerged : Env :=
  { envFrozenB with isFrozen := fun _ => false, platform := allMergedPlatform }

/-- Translated from apps/cli/src/actions/freeze_branch.ts: the engine
surface the action reads and writes.  getPrInfo(branchName) together with
its optional number field is collapsed to prNumberOf (the action reads
nothing else of the PR info); isBranchFrozen is the flag engine.freezeBranch
sets. -/
structure FreezeEngine where
  currentBranch : Option String
  isTrunk : String → Bool
  isBranchTracked : String → Bool
  prNumberOf : String → Option Nat
  isBranchFrozen : String → Bool

/-- The ExitFailedError cases freezeBranchAction can throw, plus the
currentBranchPrecondition failure when no branch argument is given and
there is no current branch. -/
inductive FreezeError
  | NoCurrentBranch
  | CannotFreezeTrunk
  | UntrackedBranch (b : String)
  | NotSubmitted (b : String)
  deriving DecidableEq, Repr

/-- What a call to freezeBranchAction leaves behind: the thrown error or
normal return, the engine afterwards, and whether engine.freezeBranch was
invoked. -/
structure FreezeOutput where
  result : Except FreezeError Unit
  engine : FreezeEngine
  calledFreeze : Bool

/-- engine.freezeBranch: marks the branch frozen. -/
def engineFreezeBranch (e : FreezeEngine) (b : String) : FreezeEngine :=
  { e with
    isBranchFrozen := fun x => if x = b then true else e.isBranchFrozen x }

/-- args.branchName ?? context.engine.currentBranchPrecondition. -/
def resolvedBranch (argBranch : Option String) (e : FreezeEngine) :
    Option String :=
  match argBranch with
  | some b => some b
  | none => e.currentBranch

/-- JavaScript truthiness of prInfo?.number: undefined and 0 are falsy. -/
def prNumberTruthy : Option Nat → Bool
  | none => false
  | some n => n != 0

/-- Translated from apps/cli/src/actions/freeze_branch.ts, guard for
guard: trunk check, tracked check, the truthiness test on
getPrInfo(branchName)?.number, the already-frozen early return, and
finally the engine.freezeBranch call. -/
def freezeBranchAction (argBranch : Option String) (e : FreezeEngine) :
    FreezeOutput :=
  match resolvedBranch argBranch e with
  | none => ⟨.error .NoCurrentBranch, e, false⟩
  | some branchName =>
    if e.isTrunk branchName then ⟨.error .CannotFreezeTrunk, e, false⟩
    else if e.isBranchTracked branchName = false then
      ⟨.error (.UntrackedBranch branchName), e, false⟩
    else if prNumberTruthy (e.prNumberOf branchName) = false then
      ⟨.error (.NotSubmitted branchName), e, false⟩
    else if e.isBranchFrozen branchName then ⟨.ok (), e, false⟩
    else ⟨.ok (), engineFreezeBranch e branchName, true⟩

/-- Engine exhibiting the JavaScript zero-falsiness corner: the branch has
an associated pull request number, namely 0. -/
def zeroPrEngine : FreezeEngine where
  currentBranch := some "feat"
  isTrunk := fun _ => false
  isBranchTracked := fun _ => true
  prNumberOf := fun _ => some 0
  isBranchFrozen := fun _ => false

/-- Engine on which all guards pass and the branch is not yet frozen. -/
def freshEngine : FreezeEngine where
  currentBranch := some "feat"
  isTrunk := fun _ => false
  isBranchTracked := fun _ => true
  prNumberOf := fun _ => some 7
  isBranchFrozen := fun _ => false

theorem takeUntilIncl_append (u : String) (l : List String) :
    ∃ rest, takeUntilIncl u l ++ rest = l := by
  induction l with
  | nil => exact ⟨[], rfl⟩
  | cons b t ih =>
    by_cases hb : b = u
    · exact ⟨t, by simp [takeUntilIncl, hb]⟩
    · obtain ⟨rest, hrest⟩ := ih
      exact ⟨rest, by simp [takeUntilIncl, hb, hrest]⟩

theorem takeUntilIncl_getLast (u : String) (l : List String) (hu : u ∈ l) :
    (takeUntilIncl u l).getLast? = some u := by
  induction l with
  | nil => cases hu
  | cons b t ih =>
    by_cases hb : b = u
    · simp [takeUntilIncl, hb]
    · have hu' : u ∈ t := by
        rcases List.mem_cons.mp hu with h | h
        · exact absurd h.symm hb
        · exact h
      have ht := ih hu'
      have hmem : u ∈ (takeUntilIncl u t).getLast? := by
        rw [ht]; exact Option.mem_some_self u
      have h2 := List.mem_getLast?_cons (y := b) hmem
      simp only [takeUntilIncl, if_neg hb]
      exact Option.mem_def.mp h2

/-- The resolver with an until bound returns a prefix of the full walk
ending at the until branch: no branch above the until branch appears. -/
theorem resolve_until_within_walk (parentOf : String → Option String)
    (trunk : String) (fuel : Nat) (cb : String) (u : String)
    (l : List String)
    (h : resolve parentOf trunk fuel (some cb) (some u) = .ok l) :
    ∃ full rest, resolve parentOf trunk fuel (some cb) none = .ok full ∧
      l ++ rest = full ∧ l.getLast? = some u := by
  unfold resolve at h ⊢
  by_cases hcb : cb = trunk
  · simp [hcb] at h
  · simp only [if_neg hcb] at h ⊢
    cases hw : walkToTrunk parentOf trunk fuel cb with
    | none => rw [hw] at h; cases h
    | some chain =>
      rw [hw] at h
      by_cases hu : u ∈ chain
      · simp only [if_pos hu] at h
        cases h
        obtain ⟨rest, hrest⟩ := takeUntilIncl_append u chain
        exact ⟨chain, rest, rfl, hrest, takeUntilIncl_getLast u chain hu⟩
      · simp [hu] at h

/-- Claim C2: for the stack main ← A ← B ← C with current branch C, the
resolver returns [A, B, C] (trunk-adjacent first, current last); with
until = B it returns exactly [A, B]; and in general a resolver run with an
until bound returns a prefix of the full walk ending at the until branch,
so branches above the current or until branch never appear. -/
theorem resolver_ordering_and_truncation :
    resolve demoParent "main" 10 (some "C") none = .ok ["A", "B", "C"] ∧
    resolve demoParent "main" 10 (some "C") (some "B") = .ok ["A", "B"] ∧
    ("C" ∉ ["A", "B"]) ∧
    (∀ (parentOf : String → Option String) (trunk : String) (fuel : Nat)
        (cb u : String) (l : List String),
      resolve parentOf trunk fuel (some cb) (some u) = .ok l →
      ∃ full rest, resolve parentOf trunk fuel (some cb) none = .ok full ∧
        l ++ rest = full ∧ l.getLast? = some u) := by
  refine ⟨by rfl, by rfl, by decide, ?_⟩
  intro parentOf trunk fuel cb u l h
  exact resolve_until_within_walk parentOf trunk fuel cb u l h

/-- Witness for C2: the general prefix conjunct applied at the concrete
stack with until = B, discharging its hypothesis by evaluation. -/
theorem resolver_ordering_and_truncation_witness :
    ∃ full rest,
      resolve demoParent "main" 10 (some "C") none = .ok full ∧
        ["A", "B"] ++ rest = full ∧ (["A", "B"] : List String).getLast? = some "B" :=
  resolver_ordering_and_truncation.2.2.2 demoParent "main" 10 "C" "B"
    ["A", "B"] (by rfl)

/-- Claim C1: the WAITING state transitions to MERGING exactly when the
freshly polled status has mergeStateStatus CLEAN (equivalently, when the
isMergeable predicate from the design document holds); the decision does not
consult checkSummary counts (they are display-only), and no separately
computed approval status exists to consult. -/
theorem waiting_to_merging_iff_clean :
    (∀ (pr : PullRequestStatus) (elapsed timeoutSecs : Nat),
      (waitStep pr elapsed timeoutSecs = WaitStepResult.toMerging ↔
        pr.mergeStateStatus = MergeStateStatus.CLEAN) ∧
      (waitStep pr elapsed timeoutSecs = WaitStepResult.toMerging ↔
        isMergeable pr = true)) ∧
    (∀ (pr : PullRequestStatus) (cs : CheckSummary) (elapsed timeoutSecs : Nat),
      waitStep { pr with checkSummary := cs } elapsed timeoutSecs =
        waitStep pr elapsed timeoutSecs) := by
  constructor
  · intro pr elapsed timeoutSecs
    constructor
    · constructor
      · intro h
        by_contra hclean
        simp only [waitStep, if_neg hclean] at h
        by_cases ht : timeoutSecs ≤ elapsed
        · simp [ht] at h
        · simp only [if_neg ht] at h
          by_cases hd : pr.mergeStateStatus = MergeStateStatus.DIRTY ∨
              (pr.mergeStateStatus = MergeStateStatus.BLOCKED ∧ pr.hasFailingChecks)
          · simp [hd] at h
          · simp [hd] at h
      · intro h
        simp [waitStep, h]
    · rw [show (isMergeable pr = true ↔
          pr.mergeStateStatus = MergeStateStatus.CLEAN) from by
        simp [isMergeable]]
      constructor
      · intro h
        by_contra hclean
        simp only [waitStep, if_neg hclean] at h
        by_cases ht : timeoutSecs ≤ elapsed
        · simp [ht] at h
        · simp only [if_neg ht] at h
          by_cases hd : pr.mergeStateStatus = MergeStateStatus.DIRTY ∨
              (pr.mergeStateStatus = MergeStateStatus.BLOCKED ∧ pr.hasFailingChecks)
          · simp [hd] at h
          · simp [hd] at h
      · intro h
        simp [waitStep, h]
  · intro pr cs elapsed timeoutSecs
    simp [waitStep]

/-- Counterexample to claim C6: with timeoutPerPr = 60 seconds, a 30 second
poll interval, and a platform whose mergeStateStatus is never CLEAN (it is
constantly DIRTY), the state machine leaves WAITING at elapsed time 0 with
reason ChecksFailed, not at 60 or more seconds with reason Timeout. -/
theorem waiting_timeout_counterexample :
    neverCleanUpTo constDirtyPoll 3 = true ∧
    waitRun constDirtyPoll 60 30 =
      some (WaitStepResult.checkFailedChecks, 0) := by
  constructor
  · rfl
  · rfl

/-- Claim C6 (amended): with timeoutPerPr = 60 seconds, a 30 second poll
interval, and a platform whose polled statuses are never CLEAN and never a
definite failure state (DIRTY, or BLOCKED with failing required checks),
the machine leaves WAITING into CHECK_FAILED with reason Timeout at elapsed
time exactly 60 seconds, which is at least 60 and strictly below 90. -/
theorem waiting_timeout_boundary (poll : Nat → PullRequestStatus)
    (h0 : nondecisive (poll 0)) (h1 : nondecisive (poll 1))
    (h2 : (poll 2).mergeStateStatus ≠ MergeStateStatus.CLEAN) :
    waitRun poll 60 30 = some (WaitStepResult.checkFailedTimeout, 60) ∧
    60 ≤ 60 ∧ 60 < 90 := by
  obtain ⟨h0c, h0d, h0b⟩ := h0
  obtain ⟨h1c, h1d, h1b⟩ := h1
  have s0 : waitStep (poll 0) 0 60 = WaitStepResult.stay := by
    simp [waitStep, h0c, h0d, h0b]
  have s1 : waitStep (poll 1) 30 60 = WaitStepResult.stay := by
    simp [waitStep, h1c, h1d, h1b]
  have s2 : waitStep (poll 2) 60 60 = WaitStepResult.checkFailedTimeout := by
    simp [waitStep, h2]
  refine ⟨?_, by omega, by omega⟩
  show waitFrom poll 60 30 3 0 = some (WaitStepResult.checkFailedTimeout, 60)
  unfold waitFrom
  norm_num [s0]
  unfold waitFrom
  norm_num [s1]
  unfold waitFrom
  norm_num [s2]

/-- Witness for the amended C6 at a concrete never-decisive platform. -/
theorem waiting_timeout_boundary_witness :
    waitRun constUnknownPoll 60 30 =
      some (WaitStepResult.checkFailedTimeout, 60) ∧ 60 ≤ 60 ∧ 60 < 90 :=
  waiting_timeout_boundary constUnknownPoll (by decide) (by decide) (by decide)

theorem attemptBranch_clean (pb : PlatformBehavior) (t : BranchNode)
    (hopen : (pb.entryStatus t.name).state = PrState.OPEN)
    (hready : pb.waitFor t.name = WaitOutcome.ready)
    (hok : pb.mergeSucceeds t.name = true) :
    attemptBranch pb t =
      .inl ⟨.Merged t.name,
        [.poll t.name, .mergeCall t.name, .syncCall, .submitCall], false, 0⟩ := by
  have hnot : ¬((pb.entryStatus t.name).state = PrState.MERGED ∨
      (pb.entryStatus t.name).state = PrState.CLOSED) := by
    rw [hopen]
    rintro (h | h) <;> cases h
  unfold attemptBranch
  simp only [hready, hok, if_neg hnot, if_pos]

theorem processBranch_clean (pb : PlatformBehavior) (dec : Decision)
    (fuel : Nat) (t : BranchNode)
    (hopen : (pb.entryStatus t.name).state = PrState.OPEN)
    (hready : pb.waitFor t.name = WaitOutcome.ready)
    (hok : pb.mergeSucceeds t.name = true) :
    processBranch pb dec fuel t =
      ⟨.Merged t.name,
        [.poll t.name, .mergeCall t.name, .syncCall, .submitCall], false, 0⟩ := by
  have ha := attemptBranch_clean pb t hopen hready hok
  cases fuel <;> simp only [processBranch, ha]

theorem attemptBranch_wait_fail (pb : PlatformBehavior) (t : BranchNode)
    (w : WaitOutcome)
    (hopen : (pb.entryStatus t.name).state = PrState.OPEN)
    (hwait : pb.waitFor t.name = w) (hw : w ≠ WaitOutcome.ready) :
    attemptBranch pb t = .inr [.poll t.name] := by
  have hnot : ¬((pb.entryStatus t.name).state = PrState.MERGED ∨
      (pb.entryStatus t.name).state = PrState.CLOSED) := by
    rw [hopen]
    rintro (h | h) <;> cases h
  cases w with
  | ready => exact absurd rfl hw
  | failedTimeout =>
    unfold attemptBranch
    simp [hwait, hnot]
  | failedChecks =>
    unfold attemptBranch
    simp [hwait, hnot]

theorem processBranch_wait_abort (pb : PlatformBehavior) (fuel : Nat)
    (t : BranchNode) (w : WaitOutcome)
    (hopen : (pb.entryStatus t.name).state = PrState.OPEN)
    (hwait : pb.waitFor t.name = w) (hw : w ≠ WaitOutcome.ready) :
    processBranch pb Decision.abort fuel t =
      ⟨.Aborted t.name, [.poll t.name], true, 1⟩ := by
  have ha := attemptBranch_wait_fail pb t w hopen hwait hw
  cases fuel <;> simp only [processBranch, ha]

theorem runLoop_all_clean (pb : PlatformBehavior) (dec : Decision)
    (fuel : Nat) (ts : List BranchNode)
    (hopen : ∀ t ∈ ts, (pb.entryStatus t.name).state = PrState.OPEN)
    (hready : ∀ t ∈ ts, pb.waitFor t.name = WaitOutcome.ready)
    (hok : ∀ t ∈ ts, pb.mergeSucceeds t.name = true) :
    runLoop pb dec fuel ts =
      ⟨ts.map (fun t => MergeOutcome.Merged t.name), cleanEffects ts, 0⟩ := by
  induction ts with
  | nil => rfl
  | cons t rest ih =>
    have hmem := List.mem_cons_self t rest
    have hstep := processBranch_clean pb dec fuel t (hopen t hmem)
      (hready t hmem) (hok t hmem)
    have hrest := ih (fun x hx => hopen x (List.mem_cons_of_mem t hx))
      (fun x hx => hready x (List.mem_cons_of_mem t hx))
      (fun x hx => hok x (List.mem_cons_of_mem t hx))
    unfold runLoop
    rw [hstep, hrest]
    rfl

theorem cleanEffects_filter_merge (ts : List BranchNode) :
    (cleanEffects ts).filter isMergeEffect =
      ts.map (fun t => Effect.mergeCall t.name) := by
  induction ts with
  | nil => rfl
  | cons t rest ih =>
    simp only [cleanEffects, List.filter, isMergeEffect, ih, List.map_cons]

theorem truncateAtFrozen_split (before after : List BranchNode)
    (fz : BranchNode) (hbf : ∀ t ∈ before, t.frozen = false)
    (hfz : fz.frozen = true) :
    truncateAtFrozen (before ++ fz :: after) = (before, some fz.name) := by
  induction before with
  | nil => simp [truncateAtFrozen, hfz]
  | cons t rest ih =>
    have ht := hbf t (List.mem_cons_self t rest)
    have := ih (fun x hx => hbf x (List.mem_cons_of_mem t hx))
    simp [truncateAtFrozen, ht, this]

theorem truncateAtFrozen_nofrozen (ts : List BranchNode)
    (h : ∀ t ∈ ts, t.frozen = false) :
    truncateAtFrozen ts = (ts, none) := by
  induction ts with
  | nil => rfl
  | cons t rest ih =>
    have ht := h t (List.mem_cons_self t rest)
    have := ih (fun x hx => h x (List.mem_cons_of_mem t hx))
    simp [truncateAtFrozen, ht, this]

theorem dropMergedClosed_id (pb : PlatformBehavior) (ts : List BranchNode)
    (h : ∀ t ∈ ts, (pb.entryStatus t.name).state = PrState.OPEN) :
    dropMergedClosed pb ts = ts := by
  induction ts with
  | nil => rfl
  | cons t rest ih =>
    have ht := h t (List.mem_cons_self t rest)
    have ih' := ih (fun x hx => h x (List.mem_cons_of_mem t hx))
    simp only [dropMergedClosed] at ih' ⊢
    rw [List.filter_cons]
    simp [ht, ih']

theorem dropMergedClosed_all_merged (pb : PlatformBehavior)
    (ts : List BranchNode)
    (h : ∀ t ∈ ts, (pb.entryStatus t.name).state = PrState.MERGED) :
    dropMergedClosed pb ts = [] := by
  induction ts with
  | nil => rfl
  | cons t rest ih =>
    have ht := h t (List.mem_cons_self t rest)
    have hne : ¬((pb.entryStatus t.name).state = PrState.OPEN) := by
      rw [ht]; intro hc; cases hc
    have ih' := ih (fun x hx => h x (List.mem_cons_of_mem t hx))
    simp only [dropMergedClosed] at ih' ⊢
    rw [List.filter_cons]
    simp [hne, ih']

theorem firstMissingPr_eq_none (ts : List BranchNode)
    (h : ∀ t ∈ ts, t.prNumber.isSome = true) :
    firstMissingPr ts = none := by
  have hfind : ts.find? (fun t => t.prNumber.isNone) = none := by
    rw [List.find?_eq_none]
    intro x hx
    have hs := h x hx
    cases hpn : x.prNumber with
    | none => rw [hpn] at hs; cases hs
    | some n => simp [hpn]
  simp [firstMissingPr, hfind]

/-- Claim C8: a target branch whose pull request the platform already
reports merged or closed at WAITING entry (via the state field) skips
straight to DONE with outcome SkippedAlreadyMerged; the merge operation is
never called, while propagation (sync, then submit) still runs for the
branch. -/
theorem skip_already_merged (pb : PlatformBehavior) (dec : Decision)
    (fuel : Nat) (t : BranchNode)
    (h : (pb.entryStatus t.name).state = PrState.MERGED ∨
      (pb.entryStatus t.name).state = PrState.CLOSED) :
    processBranch pb dec fuel t =
      ⟨.SkippedAlreadyMerged t.name, [.syncCall, .submitCall], false, 0⟩ ∧
    Effect.mergeCall t.name ∉
      (processBranch pb dec fuel t).effects ∧
    Effect.syncCall ∈ (processBranch pb dec fuel t).effects ∧
    Effect.submitCall ∈ (processBranch pb dec fuel t).effects := by
  have ha : attemptBranch pb t =
      .inl ⟨.SkippedAlreadyMerged t.name, [.syncCall, .submitCall], false, 0⟩ := by
    unfold attemptBranch
    simp only [if_pos h]
  have heq : processBranch pb dec fuel t =
      ⟨.SkippedAlreadyMerged t.name, [.syncCall, .submitCall], false, 0⟩ := by
    cases fuel <;> simp only [processBranch, ha]
  refine ⟨heq, ?_, ?_, ?_⟩ <;> rw [heq] <;> simp

theorem skip_already_merged_witness :
    processBranch mergedEntryPlatform Decision.abort 0 nodeA =
      ⟨.SkippedAlreadyMerged "feature-a", [.syncCall, .submitCall], false, 0⟩ ∧
    Effect.mergeCall "feature-a" ∉
      (processBranch mergedEntryPlatform Decision.abort 0 nodeA).effects ∧
    Effect.syncCall ∈ (processBranch mergedEntryPlatform Decision.abort 0 nodeA).effects ∧
    Effect.submitCall ∈ (processBranch mergedEntryPlatform Decision.abort 0 nodeA).effects :=
  skip_already_merged mergedEntryPlatform Decision.abort 0 nodeA (Or.inl rfl)

/-- Claim C3: for a target list whose branches ahead of the first frozen
branch all merge cleanly, the run merges only the branches strictly before
the first frozen branch, ends with outcome StoppedAtFrozen naming that
branch, and exits with code 0 (clean partial success). -/
theorem frozen_truncation_clean_stop (env : Env) (dec : Decision)
    (rfuel : Nat) (before after : List BranchNode) (fz : BranchNode)
    (hdirty : env.dirtyWorkingTree = false)
    (hpr : ∀ t ∈ before ++ fz :: after, t.prNumber.isSome = true)
    (hopen : ∀ t ∈ before ++ fz :: after,
      (env.platform.entryStatus t.name).state = PrState.OPEN)
    (hbf : ∀ t ∈ before, t.frozen = false)
    (hfz : fz.frozen = true)
    (hready : ∀ t ∈ before, env.platform.waitFor t.name = WaitOutcome.ready)
    (hok : ∀ t ∈ before, env.platform.mergeSucceeds t.name = true) :
    (runFromTargets env dec rfuel (before ++ fz :: after)).outcomes =
        before.map (fun t => MergeOutcome.Merged t.name) ++
          [MergeOutcome.StoppedAtFrozen fz.name] ∧
    (runFromTargets env dec rfuel (before ++ fz :: after)).exitCode = 0 ∧
    ((runFromTargets env dec rfuel (before ++ fz :: after)).effects.filter
        isMergeEffect) =
      before.map (fun t => Effect.mergeCall t.name) := by
  have hval : validatePre env (before ++ fz :: after) =
      .ok (before, some fz.name) := by
    unfold validatePre
    rw [hdirty]
    simp only [Bool.false_eq_true, if_false,
      firstMissingPr_eq_none _ hpr, dropMergedClosed_id _ _ hopen,
      truncateAtFrozen_split before after fz hbf hfz]
  have hloop := runLoop_all_clean env.platform dec rfuel before
    (fun t ht => hopen t (List.mem_append_left _ ht)) hready hok
  have hrun : runFromTargets env dec rfuel (before ++ fz :: after) =
      ⟨before.map (fun t => MergeOutcome.Merged t.name) ++
          [MergeOutcome.StoppedAtFrozen fz.name],
        Effect.validateStep :: Effect.syncCall :: cleanEffects before, 0, none, []⟩ := by
    unfold runFromTargets
    rw [hval]
    simp [hloop]
  rw [hrun]
  refine ⟨rfl, rfl, ?_⟩
  simp only [List.filter, isMergeEffect, cleanEffects_filter_merge]

/-- Witness for C3 at the concrete stack [A, B frozen, C]. -/
theorem frozen_truncation_clean_stop_witness :
    (runFromTargets envFrozenB Decision.abort 0 ([nA] ++ nB :: [nC])).outcomes =
        [MergeOutcome.Merged "A", MergeOutcome.StoppedAtFrozen "B"] ∧
    (runFromTargets envFrozenB Decision.abort 0 ([nA] ++ nB :: [nC])).exitCode = 0 ∧
    ((runFromTargets envFrozenB Decision.abort 0
        ([nA] ++ nB :: [nC])).effects.filter isMergeEffect) =
      [Effect.mergeCall "A"] :=
  frozen_truncation_clean_stop envFrozenB Decision.abort 0 [nA] [nC] nB
    rfl (by decide) (by decide) (by decide) rfl (by decide) (by decide)

/-- Claim C4: over targets a :: b :: rest, when a merges successfully, the
wait for b fails (for example times out) and the recovery decision is
abort, the run stops immediately with outcome list [Merged a, Aborted b]
and nonzero exit; the only merge call performed is for a (a stays merged,
nothing is rolled back), and no effect of any kind names any branch of
rest. -/
theorem abort_preserves_prior_merges (env : Env) (rfuel : Nat)
    (a b : BranchNode) (rest : List BranchNode) (w : WaitOutcome)
    (hdirty : env.dirtyWorkingTree = false)
    (hpr : ∀ t ∈ a :: b :: rest, t.prNumber.isSome = true)
    (hopen : ∀ t ∈ a :: b :: rest,
      (env.platform.entryStatus t.name).state = PrState.OPEN)
    (hfroz : ∀ t ∈ a :: b :: rest, t.frozen = false)
    (haready : env.platform.waitFor a.name = WaitOutcome.ready)
    (haok : env.platform.mergeSucceeds a.name = true)
    (hbwait : env.platform.waitFor b.name = w)
    (hbfail : w ≠ WaitOutcome.ready)
    (hdistinct : ∀ t ∈ rest, t.name ≠ a.name ∧ t.name ≠ b.name) :
    (runFromTargets env Decision.abort rfuel (a :: b :: rest)).outcomes =
        [MergeOutcome.Merged a.name, MergeOutcome.Aborted b.name] ∧
    (runFromTargets env Decision.abort rfuel (a :: b :: rest)).exitCode = 1 ∧
    ((runFromTargets env Decision.abort rfuel (a :: b :: rest)).effects.filter
        isMergeEffect) = [Effect.mergeCall a.name] ∧
    (∀ t ∈ rest, ∀ eff ∈
        (runFromTargets env Decision.abort rfuel (a :: b :: rest)).effects,
      branchOfEffect eff ≠ some t.name) := by
  have hval : validatePre env (a :: b :: rest) = .ok (a :: b :: rest, none) := by
    unfold validatePre
    rw [hdirty]
    simp only [Bool.false_eq_true, if_false,
      firstMissingPr_eq_none _ hpr, dropMergedClosed_id _ _ hopen,
      truncateAtFrozen_nofrozen _ hfroz]
  have hstepa := processBranch_clean env.platform Decision.abort rfuel a
    (hopen a (List.mem_cons_self a _)) haready haok
  have hstepb := processBranch_wait_abort env.platform rfuel b w
    (hopen b (List.mem_cons_of_mem a (List.mem_cons_self b _))) hbwait hbfail
  have hloop : runLoop env.platform Decision.abort rfuel (a :: b :: rest) =
      ⟨[MergeOutcome.Merged a.name, MergeOutcome.Aborted b.name],
        [Effect.poll a.name, Effect.mergeCall a.name, Effect.syncCall,
          Effect.submitCall, Effect.poll b.name], 1⟩ := by
    unfold runLoop
    rw [hstepa]
    simp only [Bool.false_eq_true, if_false]
    unfold runLoop
    rw [hstepb]
    simp only [if_pos rfl]
    rfl
  have hrun : runFromTargets env Decision.abort rfuel (a :: b :: rest) =
      ⟨[MergeOutcome.Merged a.name, MergeOutcome.Aborted b.name],
        [Effect.validateStep, Effect.syncCall, Effect.poll a.name,
          Effect.mergeCall a.name, Effect.syncCall, Effect.submitCall,
          Effect.poll b.name], 1, none, []⟩ := by
    unfold runFromTargets
    rw [hval]
    simp only [hloop]
    rfl
  rw [hrun]
  refine ⟨rfl, rfl, ?_, ?_⟩
  · simp [List.filter, isMergeEffect]
  · intro t ht eff heff
    have hta := (hdistinct t ht).1
    have htb := (hdistinct t ht).2
    simp only [List.mem_cons, List.not_mem_nil, or_false] at heff
    rcases heff with rfl | rfl | rfl | rfl | rfl | rfl | rfl <;>
      simp only [branchOfEffect] <;>
      intro hc
    · cases hc
    · cases hc
    · exact hta (Option.some.inj hc).symm
    · exact hta (Option.some.inj hc).symm
    · cases hc
    · cases hc
    · exact htb (Option.some.inj hc).symm

/-- Witness for C4 at the concrete stack [A, B, C] where the wait for B
times out and the decision is abort. -/
theorem abort_preserves_prior_merges_witness :
    (runFromTargets envAbortB Decision.abort 0 (nA :: nB' :: [nC])).outcomes =
        [MergeOutcome.Merged "A", MergeOutcome.Aborted "B"] ∧
    (runFromTargets envAbortB Decision.abort 0 (nA :: nB' :: [nC])).exitCode = 1 ∧
    ((runFromTargets envAbortB Decision.abort 0
        (nA :: nB' :: [nC])).effects.filter isMergeEffect) =
      [Effect.mergeCall "A"] ∧
    (∀ t ∈ [nC], ∀ eff ∈
        (runFromTargets envAbortB Decision.abort 0 (nA :: nB' :: [nC])).effects,
      branchOfEffect eff ≠ some t.name) :=
  abort_preserves_prior_merges envAbortB 0 nA nB' [nC]
    WaitOutcome.failedTimeout rfl (by decide) (by decide) (by decide)
    rfl rfl rfl (by decide) (by decide)

theorem dryRunReport_length (trunk : String) (ts : List BranchNode) :
    (dryRunReport trunk ts).length = ts.length := by
  cases ts with
  | nil => rfl
  | cons t rest => simp [dryRunReport]

/-- Claim C5: a dry-run invocation performs no effect at all — no merge,
sync, or submit call, no Precondition Validation, no platform poll — and
reports exactly one entry per resolved target in merge order, the first
with an empty note and every later one annotated "(after sync/submit)". -/
theorem dry_run_purity (cfg : MergeSessionConfig) (env : Env) (fuel : Nat)
    (names : List String) (hdry : cfg.dryRun = true)
    (hres : resolve env.parentOf env.trunk fuel env.currentBranch
      cfg.untilBranchName = .ok names) :
    (orchestrate cfg env fuel).effects = [] ∧
    (orchestrate cfg env fuel).exitCode = 0 ∧
    (orchestrate cfg env fuel).report.length = names.length ∧
    (∀ e, (orchestrate cfg env fuel).report.head? = some e → e.note = "") ∧
    (∀ e ∈ (orchestrate cfg env fuel).report.drop 1,
      e.note = "(after sync/submit)") := by
  have horch : orchestrate cfg env fuel =
      ⟨[], [], 0, none, dryRunReport env.trunk (names.map (mkNode env))⟩ := by
    unfold orchestrate
    rw [hres, hdry]
    simp
  rw [horch]
  refine ⟨rfl, rfl, ?_, ?_, ?_⟩
  · rw [dryRunReport_length]
    exact List.length_map names (mkNode env)
  · intro e he
    cases names with
    | nil => cases he
    | cons n ns =>
      simp only [List.map_cons, dryRunReport, List.head?_cons,
        Option.some.injEq] at he
      rw [← he]
  · intro e he
    cases names with
    | nil => cases he
    | cons n ns =>
      simp only [List.map_cons, dryRunReport, List.drop_succ_cons,
        List.drop_zero] at he
      rcases List.mem_map.mp he with ⟨s, hs, rfl⟩
      rfl

/-- Witness for C5 on the concrete stack main ← A ← B ← C. -/
theorem dry_run_purity_witness :
    (orchestrate cfgDry envFrozenB 10).effects = [] ∧
    (orchestrate cfgDry envFrozenB 10).exitCode = 0 ∧
    (orchestrate cfgDry envFrozenB 10).report.length =
      (["A", "B", "C"] : List String).length ∧
    (∀ e, (orchestrate cfgDry envFrozenB 10).report.head? = some e →
      e.note = "") ∧
    (∀ e ∈ (orchestrate cfgDry envFrozenB 10).report.drop 1,
      e.note = "(after sync/submit)") :=
  dry_run_purity cfgDry envFrozenB 10 ["A", "B", "C"] rfl (by rfl)

/-- Claim C7: whenever a run stops with a resolution or precondition error
(dirty working tree, current branch is trunk, a branch missing a pull
request, until name not in the walk, detached HEAD), it exits nonzero and
its effect trace contains no mutation: no merge call, no sync, no submit. -/
theorem precondition_fail_fast (cfg : MergeSessionConfig) (env : Env)
    (fuel : Nat) (err : RunError)
    (herr : (orchestrate cfg env fuel).runError = some err) :
    (orchestrate cfg env fuel).exitCode ≠ 0 ∧
    (∀ eff ∈ (orchestrate cfg env fuel).effects,
      isMergeEffect eff = false ∧ eff ≠ Effect.syncCall ∧
        eff ≠ Effect.submitCall) := by
  cases hres : resolve env.parentOf env.trunk fuel env.currentBranch
      cfg.untilBranchName with
  | error e =>
    have horch : orchestrate cfg env fuel =
        ⟨[], [], 1, some (.resolution e), []⟩ := by
      unfold orchestrate
      rw [hres]
    rw [horch]
    exact ⟨by simp, fun eff heff => absurd heff (List.not_mem_nil eff)⟩
  | ok names =>
    cases hdry : cfg.dryRun with
    | true =>
      have horch : orchestrate cfg env fuel =
          ⟨[], [], 0, none, dryRunReport env.trunk (names.map (mkNode env))⟩ := by
        unfold orchestrate
        rw [hres, hdry]
        simp
      rw [horch] at herr
      simp at herr
    | false =>
      have horch : orchestrate cfg env fuel =
          runFromTargets env cfg.recovery cfg.retryFuel
            (names.map (mkNode env)) := by
        unfold orchestrate
        rw [hres, hdry]
        simp
      rw [horch] at herr ⊢
      cases hval : validatePre env (names.map (mkNode env)) with
      | error pe =>
        have hrr : runFromTargets env cfg.recovery cfg.retryFuel
            (names.map (mkNode env)) =
            ⟨[], [Effect.validateStep], 1, some (.precondition pe), []⟩ := by
          unfold runFromTargets
          rw [hval]
        rw [hrr]
        refine ⟨by simp, ?_⟩
        intro eff heff
        simp only [List.mem_cons, List.not_mem_nil, or_false] at heff
        subst heff
        exact ⟨rfl, by simp, by simp⟩
      | ok pair =>
        obtain ⟨effective, frozenOpt⟩ := pair
        have hrr : (runFromTargets env cfg.recovery cfg.retryFuel
            (names.map (mkNode env))).runError = none := by
          unfold runFromTargets
          rw [hval]
        rw [hrr] at herr
        cases herr

/-- Witness for C7 at a concrete dirty-working-tree environment. -/
theorem precondition_fail_fast_witness :
    (orchestrate cfgRun envDirty 10).exitCode ≠ 0 ∧
    (∀ eff ∈ (orchestrate cfgRun envDirty 10).effects,
      isMergeEffect eff = false ∧ eff ≠ Effect.syncCall ∧
        eff ≠ Effect.submitCall) :=
  precondition_fail_fast cfgRun envDirty 10
    (RunError.precondition PreError.DirtyWorkingTree) (by rfl)

/-- Claim C9: when every pull request of the stack is already merged, the
run is a no-op: the initial sync detects this and empties the target list,
so no merge or submit call happens, the outcome list is empty, the exit
code is 0, the environment is unchanged by the run, and running again
produces the identical result. -/
theorem rerun_all_merged_noop (cfg : MergeSessionConfig) (env : Env)
    (fuel : Nat) (names : List String) (hdry : cfg.dryRun = false)
    (hres : resolve env.parentOf env.trunk fuel env.currentBranch
      cfg.untilBranchName = .ok names)
    (hdirty : env.dirtyWorkingTree = false)
    (hpr : ∀ n ∈ names, (env.prNumberOf n).isSome = true)
    (hmerged : ∀ n ∈ names,
      (env.platform.entryStatus n).state = PrState.MERGED) :
    (orchestrate cfg env fuel).exitCode = 0 ∧
    (orchestrate cfg env fuel).outcomes = [] ∧
    ((orchestrate cfg env fuel).effects.filter
        (fun e => isMergeEffect e || isSubmitEffect e)) = [] ∧
    applyEffects env (orchestrate cfg env fuel).effects = env ∧
    orchestrate cfg (applyEffects env (orchestrate cfg env fuel).effects) fuel =
      orchestrate cfg env fuel := by
  have hprt : ∀ t ∈ names.map (mkNode env), t.prNumber.isSome = true := by
    intro t ht
    rcases List.mem_map.mp ht with ⟨n, hn, rfl⟩
    exact hpr n hn
  have hmt : ∀ t ∈ names.map (mkNode env),
      (env.platform.entryStatus t.name).state = PrState.MERGED := by
    intro t ht
    rcases List.mem_map.mp ht with ⟨n, hn, rfl⟩
    exact hmerged n hn
  have hval : validatePre env (names.map (mkNode env)) = .ok ([], none) := by
    unfold validatePre
    rw [hdirty]
    simp only [Bool.false_eq_true, if_false, firstMissingPr_eq_none _ hprt,
      dropMergedClosed_all_merged _ _ hmt]
    rfl
  have horch : orchestrate cfg env fuel =
      ⟨[], [Effect.validateStep, Effect.syncCall], 0, none, []⟩ := by
    unfold orchestrate
    rw [hres, hdry]
    simp only [Bool.false_eq_true, if_false]
    unfold runFromTargets
    rw [hval]
    rfl
  rw [horch]
  have happ : applyEffects env [Effect.validateStep, Effect.syncCall] = env := rfl
  refine ⟨rfl, rfl, rfl, happ, ?_⟩
  rw [happ]
  exact horch

/-- Witness for C9 at a concrete all-merged stack. -/
theorem rerun_all_merged_noop_witness :
    (orchestrate cfgRun envAllMerged 10).exitCode = 0 ∧
    (orchestrate cfgRun envAllMerged 10).outcomes = [] ∧
    ((orchestrate cfgRun envAllMerged 10).effects.filter
        (fun e => isMergeEffect e || isSubmitEffect e)) = [] ∧
    applyEffects envAllMerged (orchestrate cfgRun envAllMerged 10).effects =
      envAllMerged ∧
    orchestrate cfgRun
        (applyEffects envAllMerged (orchestrate cfgRun envAllMerged 10).effects)
        10 =
      orchestrate cfgRun envAllMerged 10 :=
  rerun_all_merged_noop cfgRun envAllMerged 10 ["A", "B", "C"] rfl (by rfl)
    rfl (by decide) (by decide)

theorem prNumberTruthy_iff (o : Option Nat) :
    prNumberTruthy o = true ↔ ∃ n, o = some n ∧ n ≠ 0 := by
  cases o with
  | none => simp [prNumberTruthy]
  | some n => simp [prNumberTruthy]

/-- Counterexample to claim C10 as stated: on a branch that is not trunk,
is tracked, is not frozen, and has an associated pull request number
(number 0), the action does not invoke engine.freezeBranch — it throws the
not-submitted error, because the code tests JavaScript truthiness of
prInfo?.number and the number 0 is falsy. -/
theorem freeze_branch_zero_pr_counterexample :
    zeroPrEngine.prNumberOf "feat" = some 0 ∧
    zeroPrEngine.isTrunk "feat" = false ∧
    zeroPrEngine.isBranchTracked "feat" = true ∧
    zeroPrEngine.isBranchFrozen "feat" = false ∧
    (freezeBranchAction (some "feat") zeroPrEngine).calledFreeze = false ∧
    (freezeBranchAction (some "feat") zeroPrEngine).result =
      .error (FreezeError.NotSubmitted "feat") :=
  ⟨rfl, rfl, rfl, rfl, rfl, rfl⟩

/-- Claim C10 (amended): freezeBranchAction invokes engine.freezeBranch
exactly when the target branch is not trunk, is tracked, has an associated
nonzero pull request number, and is not already frozen; a trunk branch
throws CannotFreezeTrunk, an untracked branch throws UntrackedBranch, an
absent or zero pull request number throws NotSubmitted — each with the
engine unchanged and freezeBranch not called; on every thrown error the
engine is unchanged; and when the guards pass but the branch is already
frozen it returns normally (ok) without calling engine.freezeBranch,
leaving the engine unchanged. -/
theorem freeze_branch_guards (arg : Option String) (e : FreezeEngine)
    (b : String) (hb : resolvedBranch arg e = some b) :
    ((freezeBranchAction arg e).calledFreeze = true ↔
      (e.isTrunk b = false ∧ e.isBranchTracked b = true ∧
        (∃ n, e.prNumberOf b = some n ∧ n ≠ 0) ∧
        e.isBranchFrozen b = false)) ∧
    (e.isTrunk b = true →
      freezeBranchAction arg e =
        ⟨.error FreezeError.CannotFreezeTrunk, e, false⟩) ∧
    (e.isTrunk b = false → e.isBranchTracked b = false →
      freezeBranchAction arg e =
        ⟨.error (FreezeError.UntrackedBranch b), e, false⟩) ∧
    (e.isTrunk b = false → e.isBranchTracked b = true →
      prNumberTruthy (e.prNumberOf b) = false →
      freezeBranchAction arg e =
        ⟨.error (FreezeError.NotSubmitted b), e, false⟩) ∧
    (∀ err, (freezeBranchAction arg e).result = .error err →
      (freezeBranchAction arg e).engine = e) ∧
    (e.isTrunk b = false → e.isBranchTracked b = true →
      prNumberTruthy (e.prNumberOf b) = true → e.isBranchFrozen b = true →
      freezeBranchAction arg e = ⟨.ok (), e, false⟩) := by
  cases h1 : e.isTrunk b with
  | true =>
    have hact : freezeBranchAction arg e =
        ⟨.error .CannotFreezeTrunk, e, false⟩ := by
      unfold freezeBranchAction
      rw [hb]
      simp [h1]
    rw [hact]
    refine ⟨by simp, ?_, ?_, ?_, ?_, ?_⟩
    · intro _
      rfl
    · intro htr _
      exact absurd htr (by decide)
    · intro htr _ _
      exact absurd htr (by decide)
    · intro err _
      rfl
    · intro htr _ _ _
      exact absurd htr (by decide)
  | false =>
    cases h2 : e.isBranchTracked b with
    | false =>
      have hact : freezeBranchAction arg e =
          ⟨.error (.UntrackedBranch b), e, false⟩ := by
        unfold freezeBranchAction
        rw [hb]
        simp [h1, h2]
      rw [hact]
      refine ⟨by simp, ?_, ?_, ?_, ?_, ?_⟩
      · intro htr
        exact absurd htr (by decide)
      · intro _ _
        rfl
      · intro _ htk _
        exact absurd htk (by decide)
      · intro err _
        rfl
      · intro _ htk _ _
        exact absurd htk (by decide)
    | true =>
      cases h3 : prNumberTruthy (e.prNumberOf b) with
      | false =>
        have hnot : ¬∃ n, e.prNumberOf b = some n ∧ n ≠ 0 := by
          intro hex
          have hth := (prNumberTruthy_iff (e.prNumberOf b)).mpr hex
          rw [h3] at hth
          exact absurd hth (by decide)
        have hact : freezeBranchAction arg e =
            ⟨.error (.NotSubmitted b), e, false⟩ := by
          unfold freezeBranchAction
          rw [hb]
          simp [h1, h2, h3]
        rw [hact]
        refine ⟨by simp [hnot], ?_, ?_, ?_, ?_, ?_⟩
        · intro htr
          exact absurd htr (by decide)
        · intro _ htk
          exact absurd htk (by decide)
        · intro _ _ _
          rfl
        · intro err _
          rfl
        · intro _ _ hpt _
          exact absurd hpt (by decide)
      | true =>
        have hex : ∃ n, e.prNumberOf b = some n ∧ n ≠ 0 :=
          (prNumberTruthy_iff (e.prNumberOf b)).mp h3
        cases h4 : e.isBranchFrozen b with
        | true =>
          have hact : freezeBranchAction arg e = ⟨.ok (), e, false⟩ := by
            unfold freezeBranchAction
            rw [hb]
            simp [h1, h2, h3, h4]
          rw [hact]
          refine ⟨by simp, ?_, ?_, ?_, ?_, ?_⟩
          · intro htr
            exact absurd htr (by decide)
          · intro _ htk
            exact absurd htk (by decide)
          · intro _ _ hpt
            exact absurd hpt (by decide)
          · intro err herr
            simp at herr
          · intro _ _ _ _
            rfl
        | false =>
          have hact : freezeBranchAction arg e =
              ⟨.ok (), engineFreezeBranch e b, true⟩ := by
            unfold freezeBranchAction
            rw [hb]
            simp [h1, h2, h3, h4]
          rw [hact]
          refine ⟨by simp [hex], ?_, ?_, ?_, ?_, ?_⟩
          · intro htr
            exact absurd htr (by decide)
          · intro _ htk
            exact absurd htk (by decide)
          · intro _ _ hpt
            exact absurd hpt (by decide)
          · intro err herr
            simp at herr
          · intro _ _ _ hfr
            exact absurd hfr (by decide)

/-- Witness for C10 at a concrete engine. -/
theorem freeze_branch_guards_witness :
    ((freezeBranchAction (some "feat") freshEngine).calledFreeze = true ↔
      (freshEngine.isTrunk "feat" = false ∧
        freshEngine.isBranchTracked "feat" = true ∧
        (∃ n, freshEngine.prNumberOf "feat" = some n ∧ n ≠ 0) ∧
        freshEngine.isBranchFrozen "feat" = false)) ∧
    (freshEngine.isTrunk "feat" = true →
      freezeBranchAction (some "feat") freshEngine =
        ⟨.error FreezeError.CannotFreezeTrunk, freshEngine, false⟩) ∧
    (freshEngine.isTrunk "feat" = false →
      freshEngine.isBranchTracked "feat" = false →
      freezeBranchAction (some "feat") freshEngine =
        ⟨.error (FreezeError.UntrackedBranch "feat"), freshEngine, false⟩) ∧
    (freshEngine.isTrunk "feat" = false →
      freshEngine.isBranchTracked "feat" = true →
      prNumberTruthy (freshEngine.prNumberOf "feat") = false →
      freezeBranchAction (some "feat") freshEngine =
        ⟨.error (FreezeError.NotSubmitted "feat"), freshEngine, false⟩) ∧
    (∀ err, (freezeBranchAction (some "feat") freshEngine).result = .error err →
      (freezeBranchAction (some "feat") freshEngine).engine = freshEngine) ∧
    (freshEngine.isTrunk "feat" = false →
      freshEngine.isBranchTracked "feat" = true →
      prNumberTruthy (freshEngine.prNumberOf "feat") = true →
      freshEngine.isBranchFrozen "feat" = true →
      freezeBranchAction (some "feat") freshEngine =
        ⟨.ok (), freshEngine, false⟩) :=
  freeze_branch_guards (some "feat") freshEngine "feat" rfl

end Charcoal
